import Mathlib

/-!
Verification of the yakvs key-value store (store/store.go, server/server.go,
server/raft_server.go, raft/raft_store.go, raft/fsm.go) against its
specification.

Modelling conventions, fixed once for the whole development:
Go strings are lists of characters; Go time.Time values are natural numbers
of nanoseconds since the epoch (so t1.Before(t2) is t1 < t2); the Go map
map[string]Value is an association list whose keys are unique — the
well-formedness predicate ksWF, which every Go map state satisfies.
The append-only WAL file is a list of lines (each line without its trailing
newline character); this is faithful whenever keys and data contain no
newline, which the theorems below assume where it matters.
-/

namespace YAKVS

/-- A Go string, modelled as its list of characters. -/
abbrev Str : Type := List Char

/-- Shorthand turning a Lean string literal into the Go string model. -/
def str (s : String) : Str := s.toList

/-- store.Value: payload and absolute expiry instant, mirroring the Go struct
fields Data and ExpiresAt. -/
structure Value where
  data : Str
  expiresAt : Nat
deriving DecidableEq

/-- The zero Value, as produced by the Go expression Value\x7b\x7d. -/
def zeroValue : Value := ⟨[], 0⟩

instance : Inhabited Value := ⟨zeroValue⟩

instance : Nonempty Value := ⟨zeroValue⟩

/-- The in-memory keyspace map[string]Value of store.Store, modelled as an
association list. -/
abbrev Keyspace : Type := List (Str × Value)

/-- Go map lookup s.data[key]: the value bound to the first matching key. -/
def ksLookup (ks : Keyspace) (k : Str) : Option Value :=
  match ks with
  | [] => none
  | (k2, v) :: t => if k2 = k then some v else ksLookup t k

/-- Go map assignment s.data[key] = value: replace the existing binding or
append a fresh one. -/
def ksInsert (ks : Keyspace) (k : Str) (v : Value) : Keyspace :=
  match ks with
  | [] => [(k, v)]
  | (k2, v2) :: t => if k2 = k then (k, v) :: t else (k2, v2) :: ksInsert t k v

/-- Go built-in delete(s.data, key): remove the binding of the key. -/
def ksErase (ks : Keyspace) (k : Str) : Keyspace :=
  match ks with
  | [] => []
  | (k2, v2) :: t => if k2 = k then t else (k2, v2) :: ksErase t k

/-- Well-formedness invariant of a Go map state: bindings have unique keys. -/
def ksWF (ks : Keyspace) : Prop := (ks.map Prod.fst).Nodup

instance (ks : Keyspace) : Decidable (ksWF ks) := by
  unfold ksWF; infer_instance

@[simp] theorem ksLookup_nil (k : Str) : ksLookup [] k = none := rfl

theorem ksLookup_insert_self (ks : Keyspace) (k : Str) (v : Value) :
    ksLookup (ksInsert ks k v) k = some v := by
  induction ks with
  | nil => simp [ksInsert, ksLookup]
  | cons p t ih =>
    obtain ⟨k2, v2⟩ := p
    by_cases h : k2 = k
    · simp [ksInsert, h, ksLookup]
    · simp [ksInsert, h, ksLookup, ih]

theorem ksLookup_insert_ne (ks : Keyspace) (k k2 : Str) (v : Value)
    (h : k2 ≠ k) : ksLookup (ksInsert ks k2 v) k = ksLookup ks k := by
  induction ks with
  | nil => simp [ksInsert, ksLookup, h]
  | cons p t ih =>
    obtain ⟨k3, v3⟩ := p
    by_cases h3 : k3 = k2
    · subst h3
      simp [ksInsert, ksLookup, h]
    · rw [ksInsert, if_neg h3]
      by_cases h4 : k3 = k
      · rw [ksLookup, if_pos h4, ksLookup, if_pos h4]
      · rw [ksLookup, if_neg h4, ksLookup, if_neg h4, ih]

theorem ksLookup_erase_ne (ks : Keyspace) (k k2 : Str)
    (h : k2 ≠ k) : ksLookup (ksErase ks k2) k = ksLookup ks k := by
  induction ks with
  | nil => simp [ksErase]
  | cons p t ih =>
    obtain ⟨k3, v3⟩ := p
    by_cases h3 : k3 = k2
    · subst h3
      simp [ksErase, ksLookup, h]
    · rw [ksErase, if_neg h3]
      by_cases h4 : k3 = k
      · rw [ksLookup, if_pos h4, ksLookup, if_pos h4]
      · rw [ksLookup, if_neg h4, ksLookup, if_neg h4, ih]

/-- A key that is absent from the keyspace is not among its map keys. -/
theorem ksLookup_eq_none_iff (ks : Keyspace) (k : Str) :
    ksLookup ks k = none ↔ k ∉ ks.map Prod.fst := by
  induction ks with
  | nil => simp
  | cons p t ih =>
    obtain ⟨k2, v2⟩ := p
    by_cases h : k2 = k
    · simp [ksLookup, h]
    · simp [ksLookup, h, ih, Ne.symm h]

/-- Deleting an absent key leaves the Go map literally unchanged. -/
theorem ksErase_absent (ks : Keyspace) (k : Str)
    (h : ksLookup ks k = none) : ksErase ks k = ks := by
  induction ks with
  | nil => rfl
  | cons p t ih =>
    obtain ⟨k2, v2⟩ := p
    by_cases h2 : k2 = k
    · simp [ksLookup, h2] at h
    · simp only [ksLookup, if_neg h2] at h
      simp [ksErase, h2, ih h]

theorem ksWF_nil : ksWF ([] : Keyspace) := List.nodup_nil

/-- A key of the map after an insert was a key before, or is the new key. -/
theorem ksInsert_keys_subset (ks : Keyspace) (k k2 : Str) (v : Value)
    (h : k2 ∈ (ksInsert ks k v).map Prod.fst) :
    k2 ∈ ks.map Prod.fst ∨ k2 = k := by
  induction ks with
  | nil =>
    simp only [ksInsert, List.map_cons, List.map_nil, List.mem_singleton] at h
    exact Or.inr h
  | cons q r ihr =>
    obtain ⟨k3, v3⟩ := q
    by_cases h3 : k3 = k
    · rw [ksInsert, if_pos h3] at h
      simp only [List.map_cons, List.mem_cons] at h
      rcases h with rfl | hm
      · exact Or.inr rfl
      · exact Or.inl (by simp only [List.map_cons, List.mem_cons]; exact Or.inr hm)
    · rw [ksInsert, if_neg h3] at h
      simp only [List.map_cons, List.mem_cons] at h
      rcases h with rfl | hm
      · exact Or.inl (by simp)
      · rcases ihr hm with hl | hr
        · exact Or.inl (by simp only [List.map_cons, List.mem_cons]; exact Or.inr hl)
        · exact Or.inr hr

/-- A key of the map after an erase was a key before. -/
theorem ksErase_keys_subset (ks : Keyspace) (k k2 : Str)
    (h : k2 ∈ (ksErase ks k).map Prod.fst) : k2 ∈ ks.map Prod.fst := by
  induction ks with
  | nil => simp [ksErase] at h
  | cons q r ihr =>
    obtain ⟨k3, v3⟩ := q
    by_cases h3 : k3 = k
    · rw [ksErase, if_pos h3] at h
      simp only [List.map_cons, List.mem_cons]
      exact Or.inr h
    · rw [ksErase, if_neg h3] at h
      simp only [List.map_cons, List.mem_cons] at h ⊢
      rcases h with rfl | hm
      · exact Or.inl rfl
      · exact Or.inr (ihr hm)

theorem ksWF_insert (ks : Keyspace) (k : Str) (v : Value)
    (h : ksWF ks) : ksWF (ksInsert ks k v) := by
  induction ks with
  | nil => simp [ksInsert, ksWF]
  | cons p t ih =>
    obtain ⟨k2, v2⟩ := p
    simp only [ksWF, List.map_cons, List.nodup_cons] at h
    by_cases h2 : k2 = k
    · subst h2
      simpa [ksInsert, ksWF] using h
    · simp only [ksInsert, if_neg h2, ksWF, List.map_cons, List.nodup_cons]
      refine ⟨?_, ih h.2⟩
      intro hmem
      rcases ksInsert_keys_subset t k k2 v hmem with hl | hr
      · exact h.1 hl
      · exact h2 hr

theorem ksWF_erase (ks : Keyspace) (k : Str)
    (h : ksWF ks) : ksWF (ksErase ks k) := by
  induction ks with
  | nil => simpa [ksErase] using h
  | cons p t ih =>
    obtain ⟨k2, v2⟩ := p
    simp only [ksWF, List.map_cons, List.nodup_cons] at h
    by_cases h2 : k2 = k
    · simpa [ksErase, h2] using h.2
    · simp only [ksErase, if_neg h2, ksWF, List.map_cons, List.nodup_cons]
      exact ⟨fun hmem => h.1 (ksErase_keys_subset t k k2 hmem), ih h.2⟩

/-- Under the Go map invariant, after deleting a key it is no longer found. -/
theorem ksLookup_erase_self (ks : Keyspace) (k : Str)
    (h : ksWF ks) : ksLookup (ksErase ks k) k = none := by
  induction ks with
  | nil => rfl
  | cons p t ih =>
    obtain ⟨k2, v2⟩ := p
    simp only [ksWF, List.map_cons, List.nodup_cons] at h
    by_cases h2 : k2 = k
    · subst h2
      rw [ksErase, if_pos rfl, ksLookup_eq_none_iff]
      exact h.1
    · simp [ksErase, h2, ksLookup, ih h.2]

/-!
Timestamps in WAL lines. The Go code renders times with
Format(time.RFC3339), whose layout carries no fractional seconds, and replay
parses them back with time.Parse(time.RFC3339); the nanosecond part of the
instant is therefore dropped on the way through the WAL. We model this
rendering as the decimal string of the whole-second count: like RFC3339 it
contains no space and no newline, is parsed back successfully by replay,
and loses exactly the sub-second precision.
-/

/-- One decimal digit character. -/
def digitChar (d : Nat) : Char :=
  match d with
  | 0 => '0' | 1 => '1' | 2 => '2' | 3 => '3' | 4 => '4'
  | 5 => '5' | 6 => '6' | 7 => '7' | 8 => '8' | _ => '9'

/-- Inverse of digitChar on digit characters. -/
def digitVal (c : Char) : Option Nat :=
  if c = '0' then some 0 else if c = '1' then some 1
  else if c = '2' then some 2 else if c = '3' then some 3
  else if c = '4' then some 4 else if c = '5' then some 5
  else if c = '6' then some 6 else if c = '7' then some 7
  else if c = '8' then some 8 else if c = '9' then some 9
  else none

/-- Decimal rendering of a natural number, most significant digit first.
The fuel argument bounds the recursion depth; natChars supplies enough. -/
def natCharsAux (fuel n : Nat) : Str :=
  match fuel with
  | 0 => []
  | fuel2 + 1 =>
    if n < 10 then [digitChar n]
    else natCharsAux fuel2 (n / 10) ++ [digitChar (n % 10)]

/-- Decimal rendering of a natural number. -/
def natChars (n : Nat) : Str := natCharsAux (n + 1) n

/-- Left-to-right decimal parse with accumulator; none on a non-digit. -/
def decAccum : Str → Option Nat → Option Nat
  | [], acc => acc
  | _ :: _, none => none
  | c :: t, some a =>
    match digitVal c with
    | none => none
    | some d => decAccum t (some (10 * a + d))

/-- Parse a decimal string. -/
def parseDec (s : Str) : Option Nat := decAccum s (some 0)

theorem digitVal_digitChar (d : Nat) (h : d < 10) :
    digitVal (digitChar d) = some d := by
  interval_cases d <;> rfl

theorem digitChar_ne_space (d : Nat) : digitChar d ≠ ' ' := by
  unfold digitChar
  split <;> decide

/-- A failed parse stays failed. -/
theorem decAccum_none (s : Str) : decAccum s none = none := by
  cases s <;> rfl

/-- Consuming one digit character from the front of the input. -/
theorem decAccum_digit (c : Char) (d a : Nat) (h : digitVal c = some d) :
    decAccum [c] (some a) = some (10 * a + d) := by
  simp only [decAccum, h]

theorem decAccum_append (s t : Str) (acc : Option Nat) :
    decAccum (s ++ t) acc = decAccum t (decAccum s acc) := by
  induction s generalizing acc with
  | nil => simp [decAccum]
  | cons c r ih =>
    cases acc with
    | none => simp [decAccum, decAccum_none]
    | some a =>
      simp only [List.cons_append, decAccum]
      cases hd : digitVal c with
      | none => simp [decAccum_none]
      | some d => exact ih (some (10 * a + d))

/-- Rendering then parsing a natural number returns it unchanged (with any
prior accumulator folded in; the round-trip lemma instantiates it at 0). -/
theorem decAccum_natCharsAux (fuel n a : Nat) (h : n < 10 ^ fuel) :
    decAccum (natCharsAux fuel n) (some a) =
      some (a * 10 ^ (natCharsAux fuel n).length + n) := by
  induction fuel generalizing n a with
  | zero =>
    rw [pow_zero] at h
    have hn : n = 0 := by omega
    subst hn
    simp [natCharsAux, decAccum]
  | succ fuel2 ih =>
    by_cases h10 : n < 10
    · rw [natCharsAux, if_pos h10,
        decAccum_digit (digitChar n) n a (digitVal_digitChar n h10)]
      simp only [List.length_singleton, pow_one, Option.some.injEq]
      ring
    · rw [natCharsAux, if_neg h10, decAccum_append]
      have hdiv : n / 10 < 10 ^ fuel2 := by
        rw [pow_succ] at h
        omega
      rw [ih (n / 10) a hdiv,
        decAccum_digit (digitChar (n % 10)) (n % 10) _
          (digitVal_digitChar (n % 10) (Nat.mod_lt n (by omega)))]
      simp only [List.length_append, List.length_singleton, Option.some.injEq,
        pow_succ, ← mul_assoc]
      have hdm := Nat.div_add_mod n 10
      omega

theorem parseDec_natChars (n : Nat) : parseDec (natChars n) = some n := by
  unfold parseDec natChars
  have hn : n < 10 ^ (n + 1) :=
    lt_of_lt_of_le (Nat.lt_pow_self (by omega) n)
      (Nat.pow_le_pow_right (by omega) (by omega))
  rw [decAccum_natCharsAux (n + 1) n 0 hn]
  simp

theorem natCharsAux_no_space (fuel n : Nat) : ' ' ∉ natCharsAux fuel n := by
  induction fuel generalizing n with
  | zero => simp [natCharsAux]
  | succ fuel2 ih =>
    rw [natCharsAux]
    by_cases h10 : n < 10
    · rw [if_pos h10]
      simp only [List.mem_singleton]
      exact fun hc => digitChar_ne_space n hc.symm
    · rw [if_neg h10]
      simp only [List.mem_append, List.mem_singleton]
      rintro (hm | he)
      · exact ih (n / 10) hm
      · exact digitChar_ne_space (n % 10) he.symm

theorem natChars_no_space (n : Nat) : ' ' ∉ natChars n :=
  natCharsAux_no_space (n + 1) n

/-- Truncation of a nanosecond instant to whole seconds — the precision loss
imposed by rendering a time through the RFC3339 layout. -/
def truncSec (t : Nat) : Nat := t / 1000000000 * 1000000000

/-- RFC3339 rendering of an instant: the whole-second count in decimal. -/
def fmtTime (t : Nat) : Str := natChars (t / 1000000000)

/-- Replay-side parse of an RFC3339 timestamp back to a nanosecond instant. -/
def parseTime (s : Str) : Option Nat := (parseDec s).map (fun n => n * 1000000000)

theorem parseTime_fmtTime (t : Nat) : parseTime (fmtTime t) = some (truncSec t) := by
  unfold parseTime fmtTime truncSec
  rw [parseDec_natChars]
  rfl

theorem fmtTime_no_space (t : Nat) : ' ' ∉ fmtTime t :=
  natChars_no_space (t / 1000000000)

/-!
Splitting a WAL line into whitespace-separated fields, as ReplayLogs does
with strings.Split(line, " "), and joining fields back with
strings.Join(parts, " ").
-/

/-- strings.Split(s, " "): the list of fields between space characters. -/
def splitCh : Str → List Str
  | [] => [[]]
  | c :: t =>
    if c = ' ' then [] :: splitCh t
    else
      match splitCh t with
      | [] => [[c]]
      | h :: r => (c :: h) :: r

/-- strings.Join(parts, " "): interleave the fields with single spaces. -/
def joinCh : List Str → Str
  | [] => []
  | [x] => x
  | x :: y :: r => x ++ ' ' :: joinCh (y :: r)

theorem splitCh_ne_nil (s : Str) : splitCh s ≠ [] := by
  cases s with
  | nil => simp [splitCh]
  | cons c t =>
    rw [splitCh]
    by_cases h : c = ' '
    · simp [h]
    · rw [if_neg h]
      cases splitCh t <;> simp

/-- Splitting after a field that contains no space peels off that field. -/
theorem splitCh_field (a b : Str) (ha : ' ' ∉ a) :
    splitCh (a ++ ' ' :: b) = a :: splitCh b := by
  induction a with
  | nil => simp [splitCh]
  | cons c t ih =>
    simp only [List.mem_cons, not_or] at ha
    rw [List.cons_append, splitCh, if_neg (fun hc => ha.1 hc.symm),
      ih ha.2]

/-- Joining the fields of a split restores the original string. -/
theorem joinCh_splitCh (s : Str) : joinCh (splitCh s) = s := by
  induction s with
  | nil => rfl
  | cons c t ih =>
    rw [splitCh]
    by_cases h : c = ' '
    · rw [if_pos h]
      cases hs : splitCh t with
      | nil => exact absurd hs (splitCh_ne_nil t)
      | cons f r =>
        rw [hs] at ih
        subst h
        simpa [joinCh] using ih
    · rw [if_neg h]
      cases hs : splitCh t with
      | nil => exact absurd hs (splitCh_ne_nil t)
      | cons f r =>
        rw [hs] at ih
        cases r with
        | nil => simpa [joinCh] using ih
        | cons g r2 => simpa [joinCh] using ih

/-!
The store (store/store.go). A StoreState holds the in-memory map and the
WAL file contents as the list of complete lines appended so far. Each
mutating operation takes the current wall-clock instant and a flag telling
whether the WAL write succeeds, so that the I/O failure path of the Go code
is representable.
-/

/-- Operation tag of a SET record. -/
def setTag : Str := str "SET"

/-- Operation tag of a DELETE record. -/
def deleteTag : Str := str "DELETE"

/-- State of a store.Store: the data map and the log file contents. -/
structure StoreState where
  data : Keyspace
  wal : List Str
deriving DecidableEq

/-- The empty store over a fresh log file. -/
def emptyStore : StoreState := ⟨[], []⟩

/-- The WAL line written by Store.Set: timestamp, SET, key, expiry, data. -/
def setLine (now : Nat) (k : Str) (v : Value) : Str :=
  fmtTime now ++ ' ' :: (setTag ++ ' ' :: (k ++ ' ' :: (fmtTime v.expiresAt ++ ' ' :: v.data)))

/-- The WAL line written by Store.Delete and by the sweeper. -/
def deleteLine (now : Nat) (k : Str) : Str :=
  fmtTime now ++ ' ' :: (deleteTag ++ ' ' :: k)

/-- Store.Set: append the SET record to the log; on write failure return at
once (leaving the map untouched), otherwise install the value. -/
def storeSet (now : Nat) (walOk : Bool) (k : Str) (v : Value)
    (st : StoreState) : StoreState :=
  if walOk then ⟨ksInsert st.data k v, st.wal ++ [setLine now k v]⟩ else st

/-- Store.Delete: append the DELETE record to the log; on write failure
return at once, otherwise remove the key. -/
def storeDelete (now : Nat) (walOk : Bool) (k : Str)
    (st : StoreState) : StoreState :=
  if walOk then ⟨ksErase st.data k, st.wal ++ [deleteLine now k]⟩ else st

@[simp] theorem storeSet_true (now : Nat) (k : Str) (v : Value) (st : StoreState) :
    storeSet now true k v st = ⟨ksInsert st.data k v, st.wal ++ [setLine now k v]⟩ := rfl

@[simp] theorem storeSet_false (now : Nat) (k : Str) (v : Value) (st : StoreState) :
    storeSet now false k v st = st := rfl

@[simp] theorem storeDelete_true (now : Nat) (k : Str) (st : StoreState) :
    storeDelete now true k st = ⟨ksErase st.data k, st.wal ++ [deleteLine now k]⟩ := rfl

@[simp] theorem storeDelete_false (now : Nat) (k : Str) (st : StoreState) :
    storeDelete now false k st = st := rfl

/-- Store.Get: fetch the map entry (the zero Value when absent, as in Go),
report absent when its expiry lies strictly in the past. -/
def storeGet (now : Nat) (st : StoreState) (k : Str) : Value × Bool :=
  let vo := match ksLookup st.data k with
            | some v => (v, true)
            | none => (zeroValue, false)
  if vo.1.expiresAt < now then (zeroValue, false) else vo

/-- Store.TTL: remaining lifetime, absent when missing or strictly expired. -/
def storeTTL (now : Nat) (st : StoreState) (k : Str) : Nat × Bool :=
  match ksLookup st.data k with
  | none => (0, false)
  | some v => if v.expiresAt < now then (0, false) else (v.expiresAt - now, true)

/-- One pass of Store.BackgroundCleaner over the listed entries: an entry
whose expiry is strictly past is removed and a DELETE record emitted (the
removal stands even when the write fails, mirroring the continue in the Go
loop); other entries are kept. Go reads the clock once for the comparison
and again for each record; both reads are modelled as the same instant. -/
def cleanerAux (now : Nat) (walOk : Bool) : Keyspace → Keyspace × List Str
  | [] => ([], [])
  | (k, v) :: t =>
    if v.expiresAt < now then
      ((cleanerAux now walOk t).1,
        (if walOk then [deleteLine now k] else []) ++ (cleanerAux now walOk t).2)
    else ((k, v) :: (cleanerAux now walOk t).1, (cleanerAux now walOk t).2)

/-- One pass of Store.BackgroundCleaner over the whole store. -/
def cleanerRun (now : Nat) (walOk : Bool) (st : StoreState) : StoreState :=
  ⟨(cleanerAux now walOk st.data).1, st.wal ++ (cleanerAux now walOk st.data).2⟩

/-- The per-line dispatch of Store.ReplayLogs on the space-separated fields
of a line: fewer than 3 fields skips the line; field 1 selects the
operation and field 2 the key; a SET additionally needs at least 5 fields
(timestamp, operation, key, expiry, data) and a parseable expiry, and
rejoins fields 4 onward with single spaces to reconstruct the data; an
unknown operation is ignored. -/
def applyParts (ks : Keyspace) : List Str → Keyspace
  | _ts :: operation :: key :: rest =>
    if operation = setTag then
      match rest with
      | expiry :: d0 :: drest =>
        match parseTime expiry with
        | none => ks
        | some e => ksInsert ks key ⟨joinCh (d0 :: drest), e⟩
      | _ => ks
    else if operation = deleteTag then ksErase ks key
    else ks
  | _ => ks

/-- One line of Store.ReplayLogs: split on spaces and dispatch. -/
def applyLine (ks : Keyspace) (line : Str) : Keyspace :=
  applyParts ks (splitCh line)

/-- Store.ReplayLogs: reset the map to empty and fold over the log lines. -/
def replayLines (lines : List Str) : Keyspace := lines.foldl applyLine []

/-!
Traces of store operations, used to speak about what a store looks like
after a sequence of calls.
-/

/-- A store mutation: a Set or Delete call, or one sweeper pass, each at a
given instant and with a given WAL-write outcome. -/
inductive Op where
  | set (now : Nat) (walOk : Bool) (k : Str) (v : Value)
  | del (now : Nat) (walOk : Bool) (k : Str)
  | clean (now : Nat) (walOk : Bool)
deriving DecidableEq

def applyOp (st : StoreState) : Op → StoreState
  | .set now walOk k v => storeSet now walOk k v st
  | .del now walOk k => storeDelete now walOk k st
  | .clean now walOk => cleanerRun now walOk st

def applyOps (st : StoreState) (ops : List Op) : StoreState :=
  ops.foldl applyOp st

/-- The instant at which an operation runs. -/
def opTime : Op → Nat
  | .set now _ _ _ => now
  | .del now _ _ => now
  | .clean now _ => now

/-- The operation neither sets nor deletes the given key. -/
def avoidsKey (k : Str) : Op → Bool
  | .set _ _ k2 _ => decide (k2 ≠ k)
  | .del _ _ k2 => decide (k2 ≠ k)
  | .clean _ _ => true

/-!
Lemmas about one sweeper pass.
-/

/-- The sweeper keeps an entry whose expiry has not strictly passed. -/
theorem cleanerAux_keeps (now : Nat) (walOk : Bool) (ks : Keyspace) (k : Str)
    (v : Value) (hv : ksLookup ks k = some v) (hexp : ¬ v.expiresAt < now) :
    ksLookup (cleanerAux now walOk ks).1 k = some v := by
  induction ks with
  | nil => simp [ksLookup] at hv
  | cons p t ih =>
    obtain ⟨k2, v2⟩ := p
    by_cases h2 : k2 = k
    · subst h2
      rw [ksLookup, if_pos rfl] at hv
      injection hv with hv
      subst hv
      rw [cleanerAux, if_neg hexp, ksLookup, if_pos rfl]
    · rw [ksLookup, if_neg h2] at hv
      rw [cleanerAux]
      by_cases he : v2.expiresAt < now
      · rw [if_pos he]
        exact ih hv
      · rw [if_neg he, ksLookup, if_neg h2]
        exact ih hv

/-- A key of the map after a sweeper pass was a key before. -/
theorem cleanerAux_keys_subset (now : Nat) (walOk : Bool) (ks : Keyspace)
    (k : Str) (h : k ∈ (cleanerAux now walOk ks).1.map Prod.fst) :
    k ∈ ks.map Prod.fst := by
  induction ks with
  | nil => simp [cleanerAux] at h
  | cons p t ih =>
    obtain ⟨k2, v2⟩ := p
    rw [cleanerAux] at h
    by_cases he : v2.expiresAt < now
    · rw [if_pos he] at h
      simp only [List.map_cons, List.mem_cons]
      exact Or.inr (ih h)
    · rw [if_neg he] at h
      simp only [List.map_cons, List.mem_cons] at h ⊢
      rcases h with rfl | hm
      · exact Or.inl rfl
      · exact Or.inr (ih hm)

/-- The sweeper removes every strictly expired entry (under the Go map
invariant). -/
theorem cleanerAux_removes (now : Nat) (walOk : Bool) (ks : Keyspace)
    (k : Str) (v : Value) (hwf : ksWF ks) (hv : ksLookup ks k = some v)
    (hexp : v.expiresAt < now) :
    ksLookup (cleanerAux now walOk ks).1 k = none := by
  induction ks with
  | nil => simp [ksLookup] at hv
  | cons p t ih =>
    obtain ⟨k2, v2⟩ := p
    simp only [ksWF, List.map_cons, List.nodup_cons] at hwf
    by_cases h2 : k2 = k
    · subst h2
      rw [ksLookup, if_pos rfl] at hv
      injection hv with hv
      subst hv
      rw [cleanerAux, if_pos hexp, ksLookup_eq_none_iff]
      intro hmem
      exact hwf.1 (cleanerAux_keys_subset now walOk t k2 hmem)
    · rw [ksLookup, if_neg h2] at hv
      rw [cleanerAux]
      by_cases he : v2.expiresAt < now
      · rw [if_pos he]
        exact ih hwf.2 hv
      · rw [if_neg he, ksLookup, if_neg h2]
        exact ih hwf.2 hv

/-- With WAL writes succeeding, the sweeper emits a DELETE record for every
entry it removes. -/
theorem cleanerAux_wal_mem (now : Nat) (ks : Keyspace) (k : Str) (v : Value)
    (hv : ksLookup ks k = some v) (hexp : v.expiresAt < now) :
    deleteLine now k ∈ (cleanerAux now true ks).2 := by
  induction ks with
  | nil => simp [ksLookup] at hv
  | cons p t ih =>
    obtain ⟨k2, v2⟩ := p
    by_cases h2 : k2 = k
    · subst h2
      rw [ksLookup, if_pos rfl] at hv
      injection hv with hv
      subst hv
      rw [cleanerAux, if_pos hexp]
      simp
    · rw [ksLookup, if_neg h2] at hv
      rw [cleanerAux]
      by_cases he : v2.expiresAt < now
      · rw [if_pos he]
        simp only [if_pos rfl, List.mem_append, List.mem_singleton]
        exact Or.inr (ih hv)
      · rw [if_neg he]
        exact ih hv

/-!
Claim theorems about the standalone store.
-/

/-- C1: after Set(k, v) with a successful WAL append, as long as the clock
has not reached v.expires_at and no later operation sets or deletes k (any
mix of other Sets, Deletes and sweeper passes may run in between), Get(k)
returns v.data with present = true. -/
theorem c1_set_then_get (st : StoreState) (t0 : Nat) (k : Str) (v : Value)
    (ops : List Op) (t : Nat)
    (havoid : ∀ op ∈ ops, avoidsKey k op = true)
    (htime : ∀ op ∈ ops, opTime op ≤ t)
    (hlt : t < v.expiresAt) :
    storeGet t (applyOps (storeSet t0 true k v st) ops) k = (v, true) := by
  have hinv : ∀ (ops2 : List Op) (st2 : StoreState),
      (∀ op ∈ ops2, avoidsKey k op = true) →
      (∀ op ∈ ops2, opTime op ≤ t) →
      ksLookup st2.data k = some v →
      ksLookup (applyOps st2 ops2).data k = some v := by
    intro ops2
    induction ops2 with
    | nil => exact fun st2 _ _ h => h
    | cons op rest ih =>
      intro st2 ha ht h
      rw [applyOps, List.foldl_cons]
      refine ih _ (fun o ho => ha o (List.mem_cons_of_mem _ ho))
        (fun o ho => ht o (List.mem_cons_of_mem _ ho)) ?_
      have hao := ha op (List.mem_cons_self _ _)
      have hto := ht op (List.mem_cons_self _ _)
      cases op with
      | set now2 wok k2 v2 =>
        have hk2 : k2 ≠ k := of_decide_eq_true hao
        cases wok with
        | false => simpa [applyOp] using h
        | true =>
          simp only [applyOp, storeSet_true]
          rw [ksLookup_insert_ne st2.data k k2 v2 hk2]
          exact h
      | del now2 wok k2 =>
        have hk2 : k2 ≠ k := of_decide_eq_true hao
        cases wok with
        | false => simpa [applyOp] using h
        | true =>
          simp only [applyOp, storeDelete_true]
          rw [ksLookup_erase_ne st2.data k k2 hk2]
          exact h
      | clean now2 wok =>
        simp only [applyOp, cleanerRun]
        refine cleanerAux_keeps now2 wok st2.data k v h ?_
        simp only [opTime] at hto
        omega
  have hfinal : ksLookup (applyOps (storeSet t0 true k v st) ops).data k = some v := by
    refine hinv ops _ havoid htime ?_
    simp only [storeSet_true]
    exact ksLookup_insert_self st.data k v
  rw [storeGet, hfinal]
  simp only []
  rw [if_neg (by omega : ¬ v.expiresAt < t)]

/-- Witness for C1 at a concrete run: set k, then delete another key, then
read k back before its expiry. -/
theorem c1_set_then_get_witness :
    (∀ op ∈ [Op.del 3 true (str "j")], avoidsKey (str "k") op = true) ∧
    (∀ op ∈ [Op.del 3 true (str "j")], opTime op ≤ 5) ∧ 5 < 10 ∧
    storeGet 5 (applyOps (storeSet 0 true (str "k") ⟨str "v", 10⟩ emptyStore)
      [Op.del 3 true (str "j")]) (str "k") = (⟨str "v", 10⟩, true) :=
  ⟨by decide, by decide, by decide,
    c1_set_then_get emptyStore 0 (str "k") ⟨str "v", 10⟩
      [Op.del 3 true (str "j")] 5 (by decide) (by decide) (by decide)⟩

/-- C4 counterexample: a key whose stored expiry equals the current instant
satisfies the claim's premise expires_at ≤ now, yet Get returns the entry
with present = true, because Store.Get tests ExpiresAt.Before(now), which is
strict. -/
theorem c4_boundary_counterexample :
    (5 : Nat) ≤ 5 ∧
    storeGet 5 ⟨[(str "k", ⟨str "v", 5⟩)], []⟩ (str "k") = (⟨str "v", 5⟩, true) := by
  constructor
  · decide
  · decide

/-- C4 (amended): Get reports a stored entry absent exactly when its expiry
is strictly before now; at the boundary expires_at = now the entry is still
returned with present = true. The sweeper plays no part in either case. -/
theorem c4_get_expiry (st : StoreState) (k : Str) (v : Value) (now : Nat)
    (hv : ksLookup st.data k = some v) :
    (v.expiresAt < now → storeGet now st k = (zeroValue, false)) ∧
    (v.expiresAt = now → storeGet now st k = (v, true)) := by
  constructor
  · intro h
    rw [storeGet, hv]
    simp only []
    rw [if_pos h]
  · intro h
    rw [storeGet, hv]
    simp only []
    rw [if_neg (by omega : ¬ v.expiresAt < now)]

/-- Witness for the amended C4 at a concrete store. -/
theorem c4_get_expiry_witness :
    ksLookup (⟨[(str "k", ⟨str "v", 5⟩)], []⟩ : StoreState).data (str "k") =
      some ⟨str "v", 5⟩ ∧
    ((5 : Nat) < 7 →
      storeGet 7 ⟨[(str "k", ⟨str "v", 5⟩)], []⟩ (str "k") = (zeroValue, false)) ∧
    ((5 : Nat) = 7 →
      storeGet 7 ⟨[(str "k", ⟨str "v", 5⟩)], []⟩ (str "k") = (⟨str "v", 5⟩, true)) :=
  ⟨by decide,
    (c4_get_expiry ⟨[(str "k", ⟨str "v", 5⟩)], []⟩ (str "k") ⟨str "v", 5⟩ 7
      (by decide)).1,
    (c4_get_expiry ⟨[(str "k", ⟨str "v", 5⟩)], []⟩ (str "k") ⟨str "v", 5⟩ 7
      (by decide)).2⟩

/-- C6 counterexample: when the WAL append fails during Set, the entry is
not installed — Store.Set returns before the map assignment — so the claim
that the in-memory keyspace still reflects the mutation fails. -/
theorem c6_wal_failure_counterexample :
    ksLookup (storeSet 3 false (str "k") ⟨str "v", 10⟩ emptyStore).data (str "k") = none ∧
    (none : Option Value) ≠ some ⟨str "v", 10⟩ := by
  constructor
  · decide
  · decide

/-- C6 (amended): a WAL append I/O failure during Set or Delete causes the
call to return with neither the log nor the in-memory keyspace changed; the
mutation is lost entirely, not merely non-durable. -/
theorem c6_wal_failure_no_mutation (now : Nat) (k : Str) (v : Value)
    (st : StoreState) :
    storeSet now false k v st = st ∧ storeDelete now false k st = st := by
  exact ⟨storeSet_false now k v st, storeDelete_false now k st⟩

/-- C7: deleting an absent key leaves the map unchanged while still
appending the WAL DELETE record, and a second Delete of the same key has no
further effect on the map. -/
theorem c7_delete_idempotent (st : StoreState) (k : Str) (now1 now2 : Nat)
    (hwf : ksWF st.data) :
    (ksLookup st.data k = none →
      (storeDelete now1 true k st).data = st.data ∧
      (storeDelete now1 true k st).wal = st.wal ++ [deleteLine now1 k]) ∧
    (storeDelete now2 true k (storeDelete now1 true k st)).data =
      (storeDelete now1 true k st).data := by
  constructor
  · intro habs
    constructor
    · simp only [storeDelete_true]
      exact ksErase_absent st.data k habs
    · simp only [storeDelete_true]
  · simp only [storeDelete_true]
    exact ksErase_absent _ _ (ksLookup_erase_self st.data k hwf)

/-- Witness for C7 at a concrete store where the key is absent. -/
theorem c7_delete_idempotent_witness :
    ksWF (⟨[(str "a", ⟨str "x", 9⟩)], []⟩ : StoreState).data ∧
    ((ksLookup (⟨[(str "a", ⟨str "x", 9⟩)], []⟩ : StoreState).data (str "k") = none →
      (storeDelete 1 true (str "k") ⟨[(str "a", ⟨str "x", 9⟩)], []⟩).data =
        [(str "a", ⟨str "x", 9⟩)] ∧
      (storeDelete 1 true (str "k") ⟨[(str "a", ⟨str "x", 9⟩)], []⟩).wal =
        [] ++ [deleteLine 1 (str "k")]) ∧
    (storeDelete 2 true (str "k")
        (storeDelete 1 true (str "k") ⟨[(str "a", ⟨str "x", 9⟩)], []⟩)).data =
      (storeDelete 1 true (str "k") ⟨[(str "a", ⟨str "x", 9⟩)], []⟩).data) :=
  ⟨by decide,
    c7_delete_idempotent ⟨[(str "a", ⟨str "x", 9⟩)], []⟩ (str "k") 1 2 (by decide)⟩

/-- C8: after one sweeper pass with successful WAL appends, every entry
whose expiry was strictly past is gone from the map and has a matching WAL
DELETE record, while every other entry is untouched. -/
theorem c8_cleaner_pass (st : StoreState) (now : Nat) (hwf : ksWF st.data) :
    (∀ k v, ksLookup st.data k = some v → v.expiresAt < now →
      ksLookup (cleanerRun now true st).data k = none ∧
      deleteLine now k ∈ (cleanerRun now true st).wal) ∧
    (∀ k v, ksLookup st.data k = some v → ¬ v.expiresAt < now →
      ksLookup (cleanerRun now true st).data k = some v) := by
  constructor
  · intro k v hv hexp
    constructor
    · exact cleanerAux_removes now true st.data k v hwf hv hexp
    · simp only [cleanerRun, List.mem_append]
      exact Or.inr (cleanerAux_wal_mem now st.data k v hv hexp)
  · intro k v hv hexp
    exact cleanerAux_keeps now true st.data k v hv hexp

/-- Witness for C8 at a concrete store with one expired and one live entry. -/
theorem c8_cleaner_pass_witness :
    ksWF (⟨[(str "a", ⟨str "x", 1⟩), (str "b", ⟨str "y", 9⟩)], []⟩ : StoreState).data ∧
    ((∀ k v, ksLookup [(str "a", ⟨str "x", 1⟩), (str "b", ⟨str "y", 9⟩)] k = some v →
        v.expiresAt < 5 →
        ksLookup (cleanerRun 5 true ⟨[(str "a", ⟨str "x", 1⟩), (str "b", ⟨str "y", 9⟩)], []⟩).data k = none ∧
        deleteLine 5 k ∈ (cleanerRun 5 true ⟨[(str "a", ⟨str "x", 1⟩), (str "b", ⟨str "y", 9⟩)], []⟩).wal) ∧
    (∀ k v, ksLookup [(str "a", ⟨str "x", 1⟩), (str "b", ⟨str "y", 9⟩)] k = some v →
        ¬ v.expiresAt < 5 →
        ksLookup (cleanerRun 5 true ⟨[(str "a", ⟨str "x", 1⟩), (str "b", ⟨str "y", 9⟩)], []⟩).data k = some v)) :=
  ⟨by decide,
    c8_cleaner_pass ⟨[(str "a", ⟨str "x", 1⟩), (str "b", ⟨str "y", 9⟩)], []⟩ 5 (by decide)⟩

/-!
WAL replay (C2): how replaying the lines written by Set and Delete relates
to the directly built keyspace.
-/

/-- A string without spaces splits into the single field holding it. -/
theorem splitCh_no_space (s : Str) (hs : ' ' ∉ s) : splitCh s = [s] := by
  induction s with
  | nil => rfl
  | cons c t ih =>
    simp only [List.mem_cons, not_or] at hs
    rw [splitCh, if_neg (fun hc => hs.1 hc.symm),
      ih hs.2]

/-- Splitting a SET line recovers its four header fields followed by the
split of the data. -/
theorem splitCh_setLine (now : Nat) (k : Str) (v : Value) (hk : ' ' ∉ k) :
    splitCh (setLine now k v) =
      fmtTime now :: setTag :: k :: fmtTime v.expiresAt :: splitCh v.data := by
  unfold setLine
  rw [splitCh_field _ _ (fmtTime_no_space now),
    splitCh_field _ _ (by decide : ' ' ∉ setTag),
    splitCh_field _ _ hk,
    splitCh_field _ _ (fmtTime_no_space v.expiresAt)]

/-- Replaying a SET line installs the value with the data reconstructed
exactly and the expiry truncated to whole seconds. -/
theorem applyLine_setLine (ks : Keyspace) (now : Nat) (k : Str) (v : Value)
    (hk : ' ' ∉ k) :
    applyLine ks (setLine now k v) =
      ksInsert ks k ⟨v.data, truncSec v.expiresAt⟩ := by
  unfold applyLine
  rw [splitCh_setLine now k v hk]
  cases hs : splitCh v.data with
  | nil => exact absurd hs (splitCh_ne_nil v.data)
  | cons d0 drest =>
    simp only [applyParts, if_pos rfl, parseTime_fmtTime, eq_self_iff_true, if_true]
    rw [← hs, joinCh_splitCh]

/-- Replaying a DELETE line removes the key. -/
theorem applyLine_deleteLine (ks : Keyspace) (now : Nat) (k : Str)
    (hk : ' ' ∉ k) :
    applyLine ks (deleteLine now k) = ksErase ks k := by
  unfold applyLine deleteLine
  rw [splitCh_field _ _ (fmtTime_no_space now),
    splitCh_field _ _ (by decide : ' ' ∉ deleteTag),
    splitCh_no_space k hk]
  simp only [applyParts, if_neg (by decide : ¬ deleteTag = setTag), if_pos rfl,
    eq_self_iff_true, if_true]

theorem replayLines_append (lines : List Str) (line : Str) :
    replayLines (lines ++ [line]) = applyLine (replayLines lines) line := by
  unfold replayLines
  rw [List.foldl_append]
  rfl

/-- The truncation that one WAL round trip applies to a stored value. -/
def truncValue (v : Value) : Value := ⟨v.data, truncSec v.expiresAt⟩

/-- The conditions C2 places on one call: WAL append succeeding, key
non-empty without space or newline, data without newline; sweeper passes
are not part of the claimed sequence. -/
def c2ok : Op → Bool
  | .set _ walOk k v =>
    walOk && decide (k ≠ []) && decide (' ' ∉ k) && decide ('\n' ∉ k) &&
      decide ('\n' ∉ v.data)
  | .del _ walOk k =>
    walOk && decide (k ≠ []) && decide (' ' ∉ k) && decide ('\n' ∉ k)
  | .clean _ _ => false

/-- C2 counterexample: a single Set whose expiry instant is not a whole
second (here 1 ns past the epoch) satisfies every precondition of the
claim, yet replay installs the expiry truncated to whole seconds by the
RFC3339 rendering, so the replayed mapping differs from the direct one. -/
theorem c2_replay_counterexample :
    (∀ op ∈ [Op.set 0 true (str "k") ⟨str "v", 1⟩], c2ok op = true) ∧
    ksLookup (replayLines
        (applyOps emptyStore [Op.set 0 true (str "k") ⟨str "v", 1⟩]).wal)
        (str "k") ≠
      ksLookup (applyOps emptyStore [Op.set 0 true (str "k") ⟨str "v", 1⟩]).data
        (str "k") := by
  constructor
  · decide
  · decide

/-- C2 (amended): for a sequence of Set and Delete calls with non-empty
keys free of spaces and newlines, data free of newlines and all WAL appends
succeeding, replaying the produced WAL lines into a freshly emptied
keyspace yields the direct mapping with each stored expiry truncated to
whole seconds (the RFC3339 timestamp carries no sub-second precision);
keys, presence, and data — including data containing spaces, reconstructed
by the join-on-space step — are reproduced exactly. -/
theorem c2_replay_trunc (ops : List Op)
    (hok : ∀ op ∈ ops, c2ok op = true) (k : Str) :
    ksLookup (replayLines (applyOps emptyStore ops).wal) k =
      (ksLookup (applyOps emptyStore ops).data k).map truncValue := by
  suffices hgen : ∀ (ops2 : List Op) (st : StoreState),
      (∀ op ∈ ops2, c2ok op = true) →
      ksWF st.data → ksWF (replayLines st.wal) →
      (∀ k2, ksLookup (replayLines st.wal) k2 =
        (ksLookup st.data k2).map truncValue) →
      ∀ k2, ksLookup (replayLines (applyOps st ops2).wal) k2 =
        (ksLookup (applyOps st ops2).data k2).map truncValue by
    exact hgen ops emptyStore hok ksWF_nil ksWF_nil (fun k2 => rfl) k
  intro ops2
  induction ops2 with
  | nil => exact fun st _ _ _ hpt => hpt
  | cons op rest ih =>
    intro st hco hwfd hwfr hpt
    rw [applyOps, List.foldl_cons]
    have hcohd := hco op (List.mem_cons_self _ _)
    have hcotl := fun o ho => hco o (List.mem_cons_of_mem _ ho)
    cases op with
    | set now wok k2 v2 =>
      simp only [c2ok, Bool.and_eq_true, decide_eq_true_eq] at hcohd
      obtain ⟨⟨⟨⟨hwok, hne⟩, hsp⟩, hnl⟩, hdnl⟩ := hcohd
      subst hwok
      refine ih _ hcotl (ksWF_insert st.data k2 v2 hwfd) ?_ ?_
      · simp only [applyOp, storeSet_true]
        rw [replayLines_append, applyLine_setLine _ now k2 v2 hsp]
        exact ksWF_insert _ k2 _ hwfr
      · intro k3
        simp only [applyOp, storeSet_true]
        rw [replayLines_append, applyLine_setLine _ now k2 v2 hsp]
        by_cases hk3 : k2 = k3
        · subst hk3
          rw [ksLookup_insert_self, ksLookup_insert_self]
          rfl
        · rw [ksLookup_insert_ne _ _ _ _ hk3, ksLookup_insert_ne _ _ _ _ hk3]
          exact hpt k3
    | del now wok k2 =>
      simp only [c2ok, Bool.and_eq_true, decide_eq_true_eq] at hcohd
      obtain ⟨⟨⟨hwok, hne⟩, hsp⟩, hnl⟩ := hcohd
      subst hwok
      refine ih _ hcotl (ksWF_erase st.data k2 hwfd) ?_ ?_
      · simp only [applyOp, storeDelete_true]
        rw [replayLines_append, applyLine_deleteLine _ now k2 hsp]
        exact ksWF_erase _ k2 hwfr
      · intro k3
        simp only [applyOp, storeDelete_true]
        rw [replayLines_append, applyLine_deleteLine _ now k2 hsp]
        by_cases hk3 : k2 = k3
        · subst hk3
          rw [ksLookup_erase_self _ _ hwfr, ksLookup_erase_self _ _ hwfd]
          rfl
        · rw [ksLookup_erase_ne _ _ _ hk3, ksLookup_erase_ne _ _ _ hk3]
          exact hpt k3
    | clean now wok => simp [c2ok] at hcohd

/-- Witness for the amended C2: a Set whose data contains a space followed
by a Delete of another key; replay reproduces the data exactly and the
expiry truncated to the whole second. -/
theorem c2_replay_trunc_witness :
    (∀ op ∈ [Op.set 2 true (str "k") ⟨str "a b", 3500000000⟩,
             Op.del 4 true (str "j")], c2ok op = true) ∧
    ksLookup (replayLines
        (applyOps emptyStore [Op.set 2 true (str "k") ⟨str "a b", 3500000000⟩,
          Op.del 4 true (str "j")]).wal) (str "k") =
      (ksLookup (applyOps emptyStore
          [Op.set 2 true (str "k") ⟨str "a b", 3500000000⟩,
           Op.del 4 true (str "j")]).data (str "k")).map truncValue :=
  ⟨by decide,
    c2_replay_trunc
      [Op.set 2 true (str "k") ⟨str "a b", 3500000000⟩,
       Op.del 4 true (str "j")] (by decide) (str "k")⟩

/-!
Snapshot round trip (C3): raft/fsm.go.
-/

/-- FSM.Snapshot: copy every entry of the keyspace into the snapshot's map
(via Store.Range, which enumerates all pairs). -/
def fsmSnapshot (st : StoreState) : List (Str × Value) := st.data

/-- Snapshot.Persist followed by the decode step of FSM.Restore: the
map[string]Value is written to the sink with encoding/json and read back by
a json.Decoder. That serialization round trip is modelled as the identity
on the captured entries (JSON renders time.Time with RFC3339Nano, which
keeps full nanosecond precision). -/
def snapshotPersist (snap : List (Str × Value)) : List (Str × Value) := snap

/-- FSM.Restore: clear the keyspace (Store.Clear, which writes no WAL
record), then re-install every decoded pair through the normal Store.Set
path at the current instant, with its WAL appends succeeding. -/
def fsmRestore (now : Nat) (snap : List (Str × Value))
    (st : StoreState) : StoreState :=
  snap.foldl (fun acc kv => storeSet now true kv.1 kv.2 acc) ⟨[], st.wal⟩

/-- The data component of a restore is the fold of plain map inserts. -/
theorem fsmRestore_data (now : Nat) (snap : List (Str × Value))
    (st : StoreState) :
    (fsmRestore now snap st).data =
      snap.foldl (fun a kv => ksInsert a kv.1 kv.2) [] := by
  unfold fsmRestore
  have hgen : ∀ (l : List (Str × Value)) (s0 : StoreState),
      (l.foldl (fun acc kv => storeSet now true kv.1 kv.2 acc) s0).data =
        l.foldl (fun a kv => ksInsert a kv.1 kv.2) s0.data := by
    intro l
    induction l with
    | nil => intro s0; rfl
    | cons kv rest ihl =>
      intro s0
      rw [List.foldl_cons, List.foldl_cons, ihl, storeSet_true]
  exact hgen snap ⟨[], st.wal⟩

/-- Folding inserts of bindings with pairwise distinct keys looks up to the
binding list itself on its keys and to the accumulator elsewhere. -/
theorem ksLookup_foldl_insert (l : List (Str × Value)) (acc : Keyspace)
    (k : Str) (hwf : (l.map Prod.fst).Nodup) :
    ksLookup (l.foldl (fun a kv => ksInsert a kv.1 kv.2) acc) k =
      if k ∈ l.map Prod.fst then ksLookup l k else ksLookup acc k := by
  induction l generalizing acc with
  | nil => simp
  | cons kv rest ihl =>
    obtain ⟨k0, v0⟩ := kv
    simp only [List.map_cons, List.nodup_cons] at hwf
    rw [List.foldl_cons, ihl _ hwf.2]
    by_cases hk0 : k0 = k
    · subst hk0
      rw [if_neg (fun hm => hwf.1 hm)]
      rw [ksLookup_insert_self]
      rw [if_pos (by simp), ksLookup, if_pos rfl]
    · by_cases hmem : k ∈ rest.map Prod.fst
      · rw [if_pos hmem,
          if_pos (by simp only [List.map_cons, List.mem_cons]; exact Or.inr hmem),
          ksLookup, if_neg hk0]
      · have hnc : k ∉ ((k0, v0) :: rest).map Prod.fst := by
          simp only [List.map_cons, List.mem_cons, not_or]
          exact ⟨fun he => hk0 he.symm, hmem⟩
        rw [if_neg hmem, ksLookup_insert_ne _ _ _ _ hk0, if_neg hnc]

/-- C3: capturing a snapshot of a keyspace and restoring its persisted form
into any keyspace reproduces exactly the captured mapping — the target is
cleared first and every captured pair re-installed. -/
theorem c3_snapshot_roundtrip (st stTarget : StoreState) (now : Nat)
    (hwf : ksWF st.data) (k : Str) :
    ksLookup (fsmRestore now (snapshotPersist (fsmSnapshot st)) stTarget).data k =
      ksLookup st.data k := by
  rw [fsmRestore_data]
  unfold snapshotPersist fsmSnapshot
  rw [ksLookup_foldl_insert st.data [] k hwf]
  by_cases hmem : k ∈ st.data.map Prod.fst
  · rw [if_pos hmem]
  · rw [if_neg hmem, ksLookup_nil, eq_comm, ksLookup_eq_none_iff]
    exact hmem

/-- Witness for C3 at a concrete snapshot restored over a non-empty target
keyspace. -/
theorem c3_snapshot_roundtrip_witness :
    ksWF (⟨[(str "a", ⟨str "x", 1500000000⟩)], []⟩ : StoreState).data ∧
    ksLookup (fsmRestore 7
        (snapshotPersist (fsmSnapshot ⟨[(str "a", ⟨str "x", 1500000000⟩)], []⟩))
        ⟨[(str "b", ⟨str "y", 2⟩)], []⟩).data (str "a") =
      ksLookup (⟨[(str "a", ⟨str "x", 1500000000⟩)], []⟩ : StoreState).data (str "a") :=
  ⟨by decide,
    c3_snapshot_roundtrip ⟨[(str "a", ⟨str "x", 1500000000⟩)], []⟩
      ⟨[(str "b", ⟨str "y", 2⟩)], []⟩ 7 (by decide) (str "a")⟩

/-!
The replication engine (raft/raft_store.go) and the request routers
(server/raft_server.go in clustered mode, server/server.go in standalone
mode). The consensus library owns role transitions and the current leader
address; a RaftState records what the engine reads from it, together with
the node's local store, the commands submitted to the consensus log so
far, and the cluster configuration.
-/

/-- Consensus role of the node, as reported by raft.State(). -/
inductive RaftRole where
  | leader
  | follower
  | candidate
deriving DecidableEq

/-- raft.Command: the consensus log entry encoding one mutation (Value and
ExpiresAt stay at their zero values for a DELETE). -/
structure RaftCmd where
  op : Str
  key : Str
  value : Str
  expiresAt : Nat
deriving DecidableEq

/-- One server of the cluster configuration: its id and its address. -/
structure ClusterServer where
  id : Str
  addr : Str
deriving DecidableEq

/-- State visible to raft.RaftStore. -/
structure RaftState where
  role : RaftRole
  leaderAddr : Str
  localStore : StoreState
  submitted : List RaftCmd
  config : List ClusterServer
deriving DecidableEq

/-- RaftStore.GetLeader: the leader transport address; the empty string
means unknown (the Go body's empty-string check returns the same value on
both branches). -/
def getLeader (rs : RaftState) : Str := rs.leaderAddr

/-- RaftStore.IsLeader. -/
def isLeader (rs : RaftState) : Bool := decide (rs.role = RaftRole.leader)

/-- raft.FSM.Apply of one committed command to the local store (its WAL
append succeeding, at the given instant); unknown operations are ignored. -/
def fsmApply (now : Nat) (st : StoreState) (cmd : RaftCmd) : StoreState :=
  if cmd.op = setTag then storeSet now true cmd.key ⟨cmd.value, cmd.expiresAt⟩ st
  else if cmd.op = deleteTag then storeDelete now true cmd.key st
  else st

/-- RaftStore.Set: on a non-leader fail with the distinguished error before
anything reaches the consensus log; on the leader submit the SET command
(the modelled run has it commit within the wait and apply locally). -/
def raftSet (now : Nat) (rs : RaftState) (k : Str) (v : Value) :
    Except Str RaftState :=
  if rs.role ≠ RaftRole.leader then Except.error (str "not the leader")
  else
    Except.ok { rs with
      submitted := rs.submitted ++ [⟨setTag, k, v.data, v.expiresAt⟩],
      localStore := fsmApply now rs.localStore ⟨setTag, k, v.data, v.expiresAt⟩ }

/-- RaftStore.Delete: as raftSet, with a DELETE command. -/
def raftDelete (now : Nat) (rs : RaftState) (k : Str) : Except Str RaftState :=
  if rs.role ≠ RaftRole.leader then Except.error (str "not the leader")
  else
    Except.ok { rs with
      submitted := rs.submitted ++ [⟨deleteTag, k, [], 0⟩],
      localStore := fsmApply now rs.localStore ⟨deleteTag, k, [], 0⟩ }

/-- The membership scan inside RaftStore.Join: some configured server
already carries the node id or the address. -/
def joinScan (servers : List ClusterServer) (nodeID addr : Str) : Bool :=
  match servers with
  | [] => false
  | s :: t =>
    (decide (s.id = nodeID) || decide (s.addr = addr)) || joinScan t nodeID addr

/-- RaftStore.Join: leader-only; return success without changes when the
scan finds the id or the address already configured, otherwise add the
voter. -/
def raftJoin (rs : RaftState) (nodeID addr : Str) : Except Str RaftState :=
  if isLeader rs = false then Except.error (str "not the leader")
  else if joinScan rs.config nodeID addr then Except.ok rs
  else Except.ok { rs with config := rs.config ++ [⟨nodeID, addr⟩] }

/-- server.Command: one parsed request frame. -/
structure Command where
  op : Str
  key : Str
  value : Str
  expiresIn : Nat
deriving DecidableEq

/-- server.Response: status, message, value, ttl, with zero values for the
omitted fields. -/
structure Response where
  status : Str
  message : Str
  value : Str
  ttl : Nat
deriving DecidableEq

/-- strings.ToUpper, on the ASCII operation names the routers compare. -/
def toUpperStr (s : Str) : Str := s.map Char.toUpper

/-- Whether the first list is an initial segment of the second (helper for
strings.Contains). -/
def hasPrefixL : Str → Str → Bool
  | [], _ => true
  | _ :: _, [] => false
  | a :: as, b :: bs => a == b && hasPrefixL as bs

/-- strings.Contains(s, sub). -/
def strContains : Str → Str → Bool
  | [], sub => sub.isEmpty
  | c :: t, sub => hasPrefixL sub (c :: t) || strContains t sub

/-- server.RaftServer.processCommand: dispatch one parsed command against
the replication engine at the given instant; returns the response and the
engine state afterwards. -/
def raftProcessCommand (now : Nat) (rs : RaftState) (cmd : Command) :
    Response × RaftState :=
  if toUpperStr cmd.op = setTag then
    if cmd.key = [] then (⟨str "error", str "Key is required", [], 0⟩, rs)
    else
      match raftSet now rs cmd.key ⟨cmd.value, now + cmd.expiresIn⟩ with
      | Except.error e =>
        if strContains e (str "not the leader") then
          (⟨str "redirect", str "Not the leader, try: " ++ getLeader rs, [], 0⟩, rs)
        else (⟨str "error", e, [], 0⟩, rs)
      | Except.ok rs2 => (⟨str "success", [], [], 0⟩, rs2)
  else if toUpperStr cmd.op = str "GET" then
    if cmd.key = [] then (⟨str "error", str "Key is required", [], 0⟩, rs)
    else
      if (storeGet now rs.localStore cmd.key).2 = false then
        (⟨str "error", str "Key not found", [], 0⟩, rs)
      else
        (⟨str "success", [], (storeGet now rs.localStore cmd.key).1.data,
          (storeTTL now rs.localStore cmd.key).1⟩, rs)
  else if toUpperStr cmd.op = deleteTag then
    if cmd.key = [] then (⟨str "error", str "Key is required", [], 0⟩, rs)
    else
      match raftDelete now rs cmd.key with
      | Except.error e =>
        if strContains e (str "not the leader") then
          (⟨str "redirect", str "Not the leader, try: " ++ getLeader rs, [], 0⟩, rs)
        else (⟨str "error", e, [], 0⟩, rs)
      | Except.ok rs2 => (⟨str "success", [], [], 0⟩, rs2)
  else if toUpperStr cmd.op = str "TTL" then
    if cmd.key = [] then (⟨str "error", str "Key is required", [], 0⟩, rs)
    else
      if (storeTTL now rs.localStore cmd.key).2 = false then
        (⟨str "error", str "Key not found or expired", [], 0⟩, rs)
      else
        (⟨str "success", [], [], (storeTTL now rs.localStore cmd.key).1⟩, rs)
  else if toUpperStr cmd.op = str "STATUS" then
    (⟨str "success",
      str "Node status: " ++ (if isLeader rs then str "leader" else str "follower"),
      [], 0⟩, rs)
  else (⟨str "error", str "Unknown command", [], 0⟩, rs)

/-- server.Server.processCommand (standalone mode): dispatch one parsed
command against the local store; its switch has no STATUS case. walOk tells
whether the WAL appends made by the dispatched call succeed (the store
swallows the failure either way and the router reports success). -/
def serverProcessCommand (now : Nat) (walOk : Bool) (st : StoreState)
    (cmd : Command) : Response × StoreState :=
  if toUpperStr cmd.op = setTag then
    if cmd.key = [] then (⟨str "error", str "Key is required", [], 0⟩, st)
    else
      (⟨str "success", [], [], 0⟩,
        storeSet now walOk cmd.key ⟨cmd.value, now + cmd.expiresIn⟩ st)
  else if toUpperStr cmd.op = str "GET" then
    if cmd.key = [] then (⟨str "error", str "Key is required", [], 0⟩, st)
    else
      if (storeGet now st cmd.key).2 = false then
        (⟨str "error", str "Key not found", [], 0⟩, st)
      else
        (⟨str "success", [], (storeGet now st cmd.key).1.data,
          (storeTTL now st cmd.key).1⟩, st)
  else if toUpperStr cmd.op = deleteTag then
    if cmd.key = [] then (⟨str "error", str "Key is required", [], 0⟩, st)
    else (⟨str "success", [], [], 0⟩, storeDelete now walOk cmd.key st)
  else if toUpperStr cmd.op = str "TTL" then
    if cmd.key = [] then (⟨str "error", str "Key is required", [], 0⟩, st)
    else
      if (storeTTL now st cmd.key).2 = false then
        (⟨str "error", str "Key not found or expired", [], 0⟩, st)
      else (⟨str "success", [], [], (storeTTL now st cmd.key).1⟩, st)
  else (⟨str "error", str "Unknown command", [], 0⟩, st)

/-- C5: Set and Delete invoked while the node is not the leader fail with
the error "not the leader" — which contains that substring — without
submitting anything to the consensus log, and the clustered router turns
exactly this error into a redirect response carrying the GetLeader()
address, leaving the engine state untouched. -/
theorem c5_non_leader_redirect (now : Nat) (rs : RaftState) (cmd : Command)
    (hrole : rs.role ≠ RaftRole.leader) (hkey : cmd.key ≠ []) :
    raftSet now rs cmd.key ⟨cmd.value, now + cmd.expiresIn⟩ =
      Except.error (str "not the leader") ∧
    raftDelete now rs cmd.key = Except.error (str "not the leader") ∧
    strContains (str "not the leader") (str "not the leader") = true ∧
    (toUpperStr cmd.op = setTag →
      raftProcessCommand now rs cmd =
        (⟨str "redirect", str "Not the leader, try: " ++ getLeader rs, [], 0⟩, rs)) ∧
    (toUpperStr cmd.op = deleteTag →
      raftProcessCommand now rs cmd =
        (⟨str "redirect", str "Not the leader, try: " ++ getLeader rs, [], 0⟩, rs)) := by
  have hset : raftSet now rs cmd.key ⟨cmd.value, now + cmd.expiresIn⟩ =
      Except.error (str "not the leader") := by
    rw [raftSet, if_pos hrole]
  have hdel : raftDelete now rs cmd.key = Except.error (str "not the leader") := by
    rw [raftDelete, if_pos hrole]
  refine ⟨hset, hdel, by decide, ?_, ?_⟩
  · intro hop
    rw [raftProcessCommand, hop, if_pos rfl, if_neg hkey, hset]
    rfl
  · intro hop
    rw [raftProcessCommand, hop,
      if_neg (by decide : ¬ deleteTag = setTag),
      if_neg (by decide : ¬ deleteTag = str "GET"),
      if_pos rfl, if_neg hkey, hdel]
    rfl

/-- Witness for C5: a follower with a known leader address receives a
lower-case set command for a non-empty key. -/
theorem c5_non_leader_redirect_witness :
    (RaftState.mk RaftRole.follower (str "10.0.0.1:7000") emptyStore [] []).role ≠
      RaftRole.leader ∧
    (Command.mk (str "set") (str "k") (str "v") 5).key ≠ [] ∧
    (raftSet 2 (RaftState.mk RaftRole.follower (str "10.0.0.1:7000") emptyStore [] [])
        (str "k") ⟨str "v", 2 + 5⟩ = Except.error (str "not the leader") ∧
      raftDelete 2 (RaftState.mk RaftRole.follower (str "10.0.0.1:7000") emptyStore [] [])
        (str "k") = Except.error (str "not the leader") ∧
      strContains (str "not the leader") (str "not the leader") = true ∧
      (toUpperStr (str "set") = setTag →
        raftProcessCommand 2
            (RaftState.mk RaftRole.follower (str "10.0.0.1:7000") emptyStore [] [])
            (Command.mk (str "set") (str "k") (str "v") 5) =
          (⟨str "redirect", str "Not the leader, try: " ++
              getLeader (RaftState.mk RaftRole.follower (str "10.0.0.1:7000") emptyStore [] []),
            [], 0⟩,
            RaftState.mk RaftRole.follower (str "10.0.0.1:7000") emptyStore [] [])) ∧
      (toUpperStr (str "set") = deleteTag →
        raftProcessCommand 2
            (RaftState.mk RaftRole.follower (str "10.0.0.1:7000") emptyStore [] [])
            (Command.mk (str "set") (str "k") (str "v") 5) =
          (⟨str "redirect", str "Not the leader, try: " ++
              getLeader (RaftState.mk RaftRole.follower (str "10.0.0.1:7000") emptyStore [] []),
            [], 0⟩,
            RaftState.mk RaftRole.follower (str "10.0.0.1:7000") emptyStore [] []))) :=
  ⟨by decide, by decide,
    c5_non_leader_redirect 2
      (RaftState.mk RaftRole.follower (str "10.0.0.1:7000") emptyStore [] [])
      (Command.mk (str "set") (str "k") (str "v") 5) (by decide) (by decide)⟩

/-- C9 counterexample: the standalone router's switch has no STATUS case,
so a STATUS request falls to the default branch and yields an error
response instead of the claimed success. -/
theorem c9_standalone_status_counterexample :
    (serverProcessCommand 0 true emptyStore ⟨str "STATUS", [], [], 0⟩).1 =
      ⟨str "error", str "Unknown command", [], 0⟩ ∧
    str "error" ≠ str "success" := by
  constructor
  · decide
  · decide

/-- C9 (amended): a request whose op upper-cases to STATUS is answered by
the clustered router with success and the message "Node status: leader" or
"Node status: follower" according to the node's role; the standalone router
has no STATUS case and answers error "Unknown command". -/
theorem c9_status_dispatch (now : Nat) (rs : RaftState) (st : StoreState)
    (walOk : Bool) (cmd : Command)
    (hop : toUpperStr cmd.op = str "STATUS") :
    (raftProcessCommand now rs cmd).1 =
      ⟨str "success",
        str "Node status: " ++
          (if isLeader rs then str "leader" else str "follower"), [], 0⟩ ∧
    (serverProcessCommand now walOk st cmd).1 =
      ⟨str "error", str "Unknown command", [], 0⟩ := by
  constructor
  · rw [raftProcessCommand, hop,
      if_neg (by decide : ¬ str "STATUS" = setTag),
      if_neg (by decide : ¬ str "STATUS" = str "GET"),
      if_neg (by decide : ¬ str "STATUS" = deleteTag),
      if_neg (by decide : ¬ str "STATUS" = str "TTL"),
      if_pos rfl]
  · rw [serverProcessCommand, hop,
      if_neg (by decide : ¬ str "STATUS" = setTag),
      if_neg (by decide : ¬ str "STATUS" = str "GET"),
      if_neg (by decide : ¬ str "STATUS" = deleteTag),
      if_neg (by decide : ¬ str "STATUS" = str "TTL")]

/-- Witness for the amended C9: a lower-case status request against a
leader node in clustered mode and against the standalone server. -/
theorem c9_status_dispatch_witness :
    toUpperStr (str "status") = str "STATUS" ∧
    ((raftProcessCommand 3
        (RaftState.mk RaftRole.leader (str "10.0.0.1:7000") emptyStore [] [])
        (Command.mk (str "status") [] [] 0)).1 =
      ⟨str "success",
        str "Node status: " ++
          (if isLeader (RaftState.mk RaftRole.leader (str "10.0.0.1:7000") emptyStore [] [])
           then str "leader" else str "follower"), [], 0⟩ ∧
    (serverProcessCommand 3 true emptyStore (Command.mk (str "status") [] [] 0)).1 =
      ⟨str "error", str "Unknown command", [], 0⟩) :=
  ⟨by decide,
    c9_status_dispatch 3
      (RaftState.mk RaftRole.leader (str "10.0.0.1:7000") emptyStore [] [])
      emptyStore true (Command.mk (str "status") [] [] 0) (by decide)⟩

/-- The membership scan finds a server exactly when one shares the id or
the address. -/
theorem joinScan_iff (servers : List ClusterServer) (nodeID addr : Str) :
    joinScan servers nodeID addr = true ↔
      ∃ s ∈ servers, s.id = nodeID ∨ s.addr = addr := by
  induction servers with
  | nil => simp [joinScan]
  | cons s t ih =>
    simp [joinScan, ih, Bool.or_eq_true, decide_eq_true_eq, or_assoc]

/-- C10: Join on the leader returns success without touching the
configuration when some configured server already has the node id or the
address (even when the other component differs), and adds the voter exactly
when both are absent. -/
theorem c10_join_idempotent (rs : RaftState) (nodeID addr : Str)
    (hleader : rs.role = RaftRole.leader) :
    ((∃ s ∈ rs.config, s.id = nodeID ∨ s.addr = addr) →
      raftJoin rs nodeID addr = Except.ok rs) ∧
    ((∀ s ∈ rs.config, s.id ≠ nodeID ∧ s.addr ≠ addr) →
      raftJoin rs nodeID addr =
        Except.ok { rs with config := rs.config ++ [⟨nodeID, addr⟩] }) := by
  have hl : isLeader rs = true := by
    simp [isLeader, hleader]
  constructor
  · intro hex
    rw [raftJoin, if_neg (by rw [hl]; decide),
      if_pos ((joinScan_iff rs.config nodeID addr).mpr hex)]
  · intro hall
    have hscan : ¬ joinScan rs.config nodeID addr = true := by
      rw [joinScan_iff]
      rintro ⟨s, hs, hid | had⟩
      · exact (hall s hs).1 hid
      · exact (hall s hs).2 had
    rw [raftJoin, if_neg (by rw [hl]; decide), if_neg hscan]

/-- Witness for C10 on a leader with one configured server: joining with a
matching id but different address changes nothing, and the hypothesis that
the node is leader is discharged concretely. -/
theorem c10_join_idempotent_witness :
    (RaftState.mk RaftRole.leader (str "a1") emptyStore []
        [ClusterServer.mk (str "n1") (str "a1")]).role = RaftRole.leader ∧
    ((∃ s ∈ [ClusterServer.mk (str "n1") (str "a1")],
        s.id = str "n1" ∨ s.addr = str "a9") →
      raftJoin (RaftState.mk RaftRole.leader (str "a1") emptyStore []
          [ClusterServer.mk (str "n1") (str "a1")]) (str "n1") (str "a9") =
        Except.ok (RaftState.mk RaftRole.leader (str "a1") emptyStore []
          [ClusterServer.mk (str "n1") (str "a1")])) ∧
    ((∀ s ∈ [ClusterServer.mk (str "n1") (str "a1")],
        s.id ≠ str "n1" ∧ s.addr ≠ str "a9") →
      raftJoin (RaftState.mk RaftRole.leader (str "a1") emptyStore []
          [ClusterServer.mk (str "n1") (str "a1")]) (str "n1") (str "a9") =
        Except.ok (RaftState.mk RaftRole.leader (str "a1") emptyStore []
          [ClusterServer.mk (str "n1") (str "a1"),
           ClusterServer.mk (str "n1") (str "a9")])) :=
  ⟨by decide,
    c10_join_idempotent
      (RaftState.mk RaftRole.leader (str "a1") emptyStore []
        [ClusterServer.mk (str "n1") (str "a1")]) (str "n1") (str "a9")
      (by decide)⟩

end YAKVS

